import Mathlib

/-!
Verification of the quadtree particle simulation (src/quadtree.rs, src/main.rs).

The Rust code is shallowly embedded over an arbitrary linear ordered field α:
instantiated at ℚ where exact executable evaluation is wanted, and at ℝ
(with Real.sqrt) for the collision physics, whose source uses a square root.
f32 values are modelled as exact field elements; the square root function of
the float library is passed as an explicit parameter and instantiated with
Real.sqrt in the theorems.  glam's Vec2::normalize applied to a zero-length
vector produces non-finite (NaN) components; following the convention that
fallible operations return Option, normalization returns none exactly in
that case, and a none that reaches a particle position marks the position
as NaN-poisoned.
-/

/-- Embedding of struct Point (src/quadtree.rs).  The display color is an
opaque value never read by the simulation logic; it is carried as a Nat. -/
structure Point (α : Type) where
  id : Nat
  position : α × α
  prev_position : α × α
  acceleration : α × α
  radius : α
  color : Nat
deriving DecidableEq, Repr

/-- Embedding of Point::new (src/quadtree.rs). -/
def Point.new {α : Type} (id : Nat) (position prev_position acceleration : α × α)
    (radius : α) (color : Nat) : Point α :=
  ⟨id, position, prev_position, acceleration, radius, color⟩

/-- Embedding of enum Node (src/quadtree.rs): a Leaf holds an ordered list of
points, a Branch has four quadrant children. -/
inductive Node (α : Type) where
  | Leaf (value : List (Point α))
  | Branch (nw ne sw se : Node α)
deriving DecidableEq, Repr

/-- Embedding of struct QuadTree (src/quadtree.rs). -/
structure QuadTree (α : Type) where
  left_x : α
  bottom_y : α
  width : α
  height : α
  root : Node α
deriving DecidableEq, Repr

/-- Embedding of QuadTree::new (src/quadtree.rs). -/
def QuadTree.new {α : Type} (left_x bottom_y width height : α) : QuadTree α :=
  ⟨left_x, bottom_y, width, height, Node.Leaf []⟩

/-- Embedding of the loop body of QuadTree::insert (src/quadtree.rs), as
recursion over the current node; x, y, width, height are the rectangle of the
current node, updated on descent exactly as the Rust loop updates its local
variables.  Vec::push appends at the end; Vec::partition keeps order and
equals the pair (filter p, filter (not p)). -/
def Node.insert {α : Type} [LinearOrderedField α] :
    Node α → Point α → α → α → α → α → Nat → Node α
  | Node.Leaf value, ball, x, y, width, height, points_per_quad =>
      let value := value ++ [ball]
      if value.length > points_per_quad then
        let width := width / 2
        let height := height / 2
        let x_mid := x + width
        let y_mid := y + height
        let north := value.filter fun b => decide (b.position.2 ≥ y_mid)
        let south := value.filter fun b => !decide (b.position.2 ≥ y_mid)
        let nw := north.filter fun b => decide (b.position.1 < x_mid)
        let ne := north.filter fun b => !decide (b.position.1 < x_mid)
        let sw := south.filter fun b => decide (b.position.1 < x_mid)
        let se := south.filter fun b => !decide (b.position.1 < x_mid)
        Node.Branch (Node.Leaf nw) (Node.Leaf ne) (Node.Leaf sw) (Node.Leaf se)
      else
        Node.Leaf value
  | Node.Branch nw ne sw se, ball, x, y, width, height, points_per_quad =>
      let width := width / 2
      let height := height / 2
      let x_mid := x + width
      let y_mid := y + height
      if ball.position.1 < x_mid then
        if ball.position.2 > y_mid then
          Node.Branch (Node.insert nw ball x y_mid width height points_per_quad) ne sw se
        else
          Node.Branch nw ne (Node.insert sw ball x y width height points_per_quad) se
      else
        if ball.position.2 > y_mid then
          Node.Branch nw (Node.insert ne ball x_mid y_mid width height points_per_quad) sw se
        else
          Node.Branch nw ne sw (Node.insert se ball x_mid y width height points_per_quad)

/-- Embedding of QuadTree::insert (src/quadtree.rs): descend from the root
with the tree's own rectangle. -/
def QuadTree.insert {α : Type} [LinearOrderedField α] (t : QuadTree α) (ball : Point α)
    (points_per_quad : Nat) : QuadTree α :=
  { t with root := Node.insert t.root ball t.left_x t.bottom_y t.width t.height points_per_quad }

/-- Embedding of QuadTree::from_points (src/quadtree.rs): filter to points
inside the bounds (inclusive on all four sides), then insert in input order. -/
def QuadTree.from_points {α : Type} [LinearOrderedField α] (points : List (Point α))
    (left_x bottom_y width height : α) (points_per_quad : Nat) : QuadTree α :=
  (points.filter fun p =>
      decide (p.position.1 ≥ left_x) && decide (p.position.1 ≤ left_x + width) &&
      decide (p.position.2 ≥ bottom_y) && decide (p.position.2 ≤ bottom_y + height)).foldl
    (fun tree point => QuadTree.insert tree point points_per_quad)
    (QuadTree.new left_x bottom_y width height)

/-- Number of nodes of a quadtree node; the termination measure of the
iterative query loop. -/
def Node.size {α : Type} : Node α → Nat
  | Node.Leaf _ => 1
  | Node.Branch nw ne sw se => 1 + Node.size nw + Node.size ne + Node.size sw + Node.size se

/-- Embedding of the while-let work-list loop inside QuadTree::query_radius
(src/quadtree.rs).  The Rust Vec-stack pops from the end; the four pushes
nw, ne, sw, se therefore pop in the order se, sw, ne, nw, which is how the
new entries are consed below. -/
def QuadTree.queryLoop {α : Type} [LinearOrderedField α]
    (stack : List (Node α × α × α × α × α)) (x y radius : α)
    (result : List (Point α)) : List (Point α) :=
  match stack with
  | [] => result
  | (node, quad_x, quad_y, width, height) :: rest =>
    if x + radius < quad_x ∨ x - radius > quad_x + width ∨
        y + radius < quad_y ∨ y - radius > quad_y + height then
      QuadTree.queryLoop rest x y radius result
    else
      match node with
      | Node.Leaf value => QuadTree.queryLoop rest x y radius (result ++ value)
      | Node.Branch nw ne sw se =>
        let width := width / 2
        let height := height / 2
        let x_mid := quad_x + width
        let y_mid := quad_y + height
        QuadTree.queryLoop
          ((se, x_mid, quad_y, width, height) ::
           (sw, quad_x, quad_y, width, height) ::
           (ne, x_mid, y_mid, width, height) ::
           (nw, quad_x, y_mid, width, height) :: rest) x y radius result
termination_by (stack.map fun e => 5 * Node.size e.1).sum + stack.length
decreasing_by
  all_goals simp only [List.map_cons, List.sum_cons, List.length_cons, Node.size]
  all_goals omega

/-- Embedding of QuadTree::query_radius (src/quadtree.rs): the iterative,
explicit-stack traversal starting from the root. -/
def QuadTree.query_radius {α : Type} [LinearOrderedField α] (t : QuadTree α)
    (x y radius : α) : List (Point α) :=
  QuadTree.queryLoop [(t.root, t.left_x, t.bottom_y, t.width, t.height)] x y radius []

/-- Embedding of QuadTree::query_radius_rec (src/quadtree.rs), the retained
recursive implementation, accumulating into result in the order
nw, ne, sw, se.  The source performs the prune test once before matching on
the node; since the test does not inspect the node, stating it inside each
constructor branch is the same function and gives one defining equation per
constructor. -/
def Node.query_radius_rec {α : Type} [LinearOrderedField α] :
    Node α → α → α → α → α → α → α → α → List (Point α) → List (Point α)
  | Node.Leaf value, x, y, width, height, quad_x, quad_y, radius, result =>
    if x + radius < quad_x ∨ x - radius > quad_x + width ∨
        y + radius < quad_y ∨ y - radius > quad_y + height then
      result
    else
      result ++ value
  | Node.Branch nw ne sw se, x, y, width, height, quad_x, quad_y, radius, result =>
    if x + radius < quad_x ∨ x - radius > quad_x + width ∨
        y + radius < quad_y ∨ y - radius > quad_y + height then
      result
    else
      let width := width / 2
      let height := height / 2
      let x_mid := quad_x + width
      let y_mid := quad_y + height
      let result := Node.query_radius_rec nw x y width height quad_x y_mid radius result
      let result := Node.query_radius_rec ne x y width height x_mid y_mid radius result
      let result := Node.query_radius_rec sw x y width height quad_x quad_y radius result
      Node.query_radius_rec se x y width height x_mid quad_y radius result

/-- All points stored in the leaves of a subtree, in leaf order. -/
def Node.allPoints {α : Type} : Node α → List (Point α)
  | Node.Leaf value => value
  | Node.Branch nw ne sw se =>
      Node.allPoints nw ++ Node.allPoints ne ++ Node.allPoints sw ++ Node.allPoints se

/-- Bucket capacity check: every leaf of the subtree holds at most
points_per_quad particles. -/
def Node.capOkb {α : Type} (points_per_quad : Nat) : Node α → Bool
  | Node.Leaf value => decide (value.length ≤ points_per_quad)
  | Node.Branch nw ne sw se =>
      Node.capOkb points_per_quad nw && Node.capOkb points_per_quad ne &&
      Node.capOkb points_per_quad sw && Node.capOkb points_per_quad se

/-- The four quadrants of a node rectangle. -/
inductive Quadrant where
  | NW
  | NE
  | SW
  | SE
deriving DecidableEq, Repr

/-- Quadrant assignment used by the SPLIT in QuadTree::insert
(src/quadtree.rs lines 114-116): the partition predicates are
b.position.y >= y_mid for the north half and b.position.x < x_mid for the
west half. -/
def splitQuadrant {α : Type} [LinearOrderedField α] (b : Point α) (x_mid y_mid : α) : Quadrant :=
  if b.position.2 ≥ y_mid then
    if b.position.1 < x_mid then Quadrant.NW else Quadrant.NE
  else
    if b.position.1 < x_mid then Quadrant.SW else Quadrant.SE

/-- Quadrant assignment used by the DESCENT in QuadTree::insert
(src/quadtree.rs lines 132-147): ball.position.x < x_mid selects the west
half and ball.position.y > y_mid (strict) selects the north half. -/
def descendQuadrant {α : Type} [LinearOrderedField α] (b : Point α) (x_mid y_mid : α) : Quadrant :=
  if b.position.1 < x_mid then
    if b.position.2 > y_mid then Quadrant.NW else Quadrant.SW
  else
    if b.position.2 > y_mid then Quadrant.NE else Quadrant.SE

/-- Embedding of glam Vec2::normalize (self divided by its length, the length
being the float square root of the squared norm).  For a zero-length vector
the float result has NaN components; that fallible outcome is none. -/
def vec_normalize {α : Type} [LinearOrderedField α] (sqrt : α → α) (v : α × α) :
    Option (α × α) :=
  let len := sqrt (v.1 * v.1 + v.2 * v.2)
  if len = 0 then none else some (v.1 / len, v.2 / len)

/-- Embedding of the per-particle task body of Model::resolve_collisions
(src/main.rs lines 193-206): snapshot the particle (const_point), query the
shared quadtree for neighbors within point.radius + max_radius, and for every
neighbor with a different id and squared center distance within the summed
radii, add normalize(axis) * (radius sum - distance) * 0.5 to the particle's
own position.  A NaN produced by normalizing a zero axis poisons the
position: the result is none. -/
def Model.resolve_point {α : Type} [LinearOrderedField α] (sqrt : α → α)
    (quadtree : QuadTree α) (max_radius : α) (point : Point α) : Option (Point α) :=
  let const_point := point
  ((QuadTree.query_radius quadtree const_point.position.1 const_point.position.2
      (point.radius + max_radius)).foldl
    (fun acc p =>
      acc.bind fun pos =>
        let axis := (const_point.position.1 - p.position.1,
                     const_point.position.2 - p.position.2)
        let dist := axis.1 * axis.1 + axis.2 * axis.2
        if p.id ≠ const_point.id ∧
            dist ≤ (point.radius + p.radius) * (point.radius + p.radius) then
          let delta := point.radius + p.radius - sqrt dist
          (vec_normalize sqrt axis).map fun norm =>
            (pos.1 + norm.1 * delta * (1 / 2), pos.2 + norm.2 * delta * (1 / 2))
        else
          some pos)
    (some point.position)).map fun pos => { point with position := pos }

/-- Embedding of Model::resolve_collisions (src/main.rs lines 190-207): build
the quadtree from a snapshot of the particles over the window rectangle, then
run every particle's task against that shared snapshot (rayon's par_iter_mut
gives each task exclusive write access to its own particle and read access to
the quadtree snapshot only, so the parallel pass equals this map). -/
def Model.resolve_collisions {α : Type} [LinearOrderedField α] (sqrt : α → α)
    (points : List (Point α)) (left bottom width height : α) (points_per_quad : Nat)
    (max_radius : α) : List (Option (Point α)) :=
  let quadtree := QuadTree.from_points points left bottom width height points_per_quad
  points.map (Model.resolve_point sqrt quadtree max_radius)

/-- Embedding of the per-particle body of Model::resolve_mouse_collisions
(src/main.rs lines 149-157): same single-sided half-penetration correction
against the pointer disk; normalize of a zero axis again yields NaN (none). -/
def Model.resolve_mouse_step {α : Type} [LinearOrderedField α] (sqrt : α → α)
    (mouse_pos : α × α) (mouse_radius : α) (point : Point α) : Option (Point α) :=
  let axis := (point.position.1 - mouse_pos.1, point.position.2 - mouse_pos.2)
  let dist := sqrt (axis.1 * axis.1 + axis.2 * axis.2)
  if dist ≤ point.radius + mouse_radius then
    let delta := point.radius + mouse_radius - dist
    (vec_normalize sqrt axis).map fun norm =>
      { point with position := (point.position.1 + norm.1 * delta * (1 / 2),
                               point.position.2 + norm.2 * delta * (1 / 2)) }
  else
    some point

/-- Embedding of Model::resolve_mouse_collisions (src/main.rs lines 147-158):
the pointer pass applies the per-particle correction to every particle; each
parallel task owns its particle, so the pass equals this map. -/
def Model.resolve_mouse_collisions {α : Type} [LinearOrderedField α] (sqrt : α → α)
    (points : List (Point α)) (mouse_pos : α × α) (mouse_radius : α) :
    List (Option (Point α)) :=
  points.map (Model.resolve_mouse_step sqrt mouse_pos mouse_radius)

/-- Embedding of the per-particle body of Model::resolve_wall_collisions
(src/main.rs lines 213-231): reset acceleration to (0, gravity); if the
bottom edge is below the floor, zero the vertical acceleration, clamp y to
bottom + radius and set prev y to the new y plus half the old y displacement;
if a side edge crosses the left or right boundary, clamp x (left wins when
both are crossed, per the source's if-else) and set prev x to the new x plus
half the old x displacement. -/
def Model.resolve_wall_step {α : Type} [LinearOrderedField α]
    (gravity left right bottom : α) (point : Point α) : Point α :=
  let point : Point α := { point with acceleration := ((0 : α), gravity) }
  let point : Point α :=
    if point.position.2 - point.radius < bottom then
      let y_diff := point.position.2 - point.prev_position.2
      { point with
          acceleration := (point.acceleration.1, 0),
          position := (point.position.1, bottom + point.radius),
          prev_position := (point.prev_position.1, (bottom + point.radius) + y_diff * (1 / 2)) }
    else point
  if point.position.1 - point.radius < left ∨ point.position.1 + point.radius > right then
    let x_diff := point.position.1 - point.prev_position.1
    let new_x := if point.position.1 - point.radius < left then left + point.radius
                 else right - point.radius
    { point with
        position := (new_x, point.position.2),
        prev_position := (new_x + x_diff * (1 / 2), point.prev_position.2) }
  else point

/-- Embedding of Model::resolve_wall_collisions (src/main.rs lines 209-232):
a sequential in-place pass over all particles. -/
def Model.resolve_wall_collisions {α : Type} [LinearOrderedField α]
    (points : List (Point α)) (gravity left right bottom : α) : List (Point α) :=
  points.map (Model.resolve_wall_step gravity left right bottom)

/-- Embedding of enum SpawnerMode (src/main.rs). -/
inductive SpawnerMode where
  | Inactive
  | TopLeft
deriving DecidableEq, Repr

/-- Embedding of struct Model (src/main.rs).  The egui handle is opaque GUI
state never read by the simulation and is omitted. -/
structure Model (α : Type) where
  points : List (Point α)
  points_per_quad : Nat
  running : Bool
  show_quad_tree : Bool
  spawner_mode : SpawnerMode
  mouse_radius : α
  minimum_size : α
  maximum_size : α

/-- Embedding of Model::spawn_point (src/main.rs lines 184-188): push a new
particle whose id is the current store length, whose prev_position is the
position plus (-2, 0), with zero acceleration.  The randomly drawn radius and
color are modelled as oracle parameters; nannou's random_range(min, max)
contract (a value in the half-open interval from min to max) is supplied as a
hypothesis where a theorem needs it. -/
def Model.spawn_point {α : Type} [LinearOrderedField α] (m : Model α) (position : α × α)
    (random_radius : α) (random_color : Nat) : Model α :=
  { m with points := m.points ++
      [Point.new m.points.length position (position.1 + (-2), position.2 + 0) (0, 0)
        random_radius random_color] }

/-- Proof helper: accumulator-free form of the recursive radius query.  It
returns exactly what one call contributes, children in nw, ne, sw, se
order. -/
def Node.collectRec {α : Type} [LinearOrderedField α] :
    Node α → α → α → α → α → α → α → α → List (Point α)
  | Node.Leaf value, x, y, width, height, quad_x, quad_y, radius =>
    if x + radius < quad_x ∨ x - radius > quad_x + width ∨
        y + radius < quad_y ∨ y - radius > quad_y + height then
      []
    else
      value
  | Node.Branch nw ne sw se, x, y, width, height, quad_x, quad_y, radius =>
    if x + radius < quad_x ∨ x - radius > quad_x + width ∨
        y + radius < quad_y ∨ y - radius > quad_y + height then
      []
    else
      Node.collectRec nw x y (width / 2) (height / 2) quad_x (quad_y + height / 2) radius ++
      (Node.collectRec ne x y (width / 2) (height / 2) (quad_x + width / 2)
        (quad_y + height / 2) radius ++
      (Node.collectRec sw x y (width / 2) (height / 2) quad_x quad_y radius ++
      Node.collectRec se x y (width / 2) (height / 2) (quad_x + width / 2) quad_y radius))

/-- Contribution of one stack entry (node, quad_x, quad_y, width, height) of
the iterative work list. -/
def Node.collect {α : Type} [LinearOrderedField α] (x y radius : α)
    (e : Node α × α × α × α × α) : List (Point α) :=
  Node.collectRec e.1 x y e.2.2.2.1 e.2.2.2.2 e.2.1 e.2.2.1 radius

/-- A point lies in the closed rectangle with corner (quad_x, quad_y) and the
given width and height. -/
def Point.inRect {α : Type} [LinearOrderedField α] (p : Point α)
    (quad_x quad_y width height : α) : Prop :=
  quad_x ≤ p.position.1 ∧ p.position.1 ≤ quad_x + width ∧
  quad_y ≤ p.position.2 ∧ p.position.2 ≤ quad_y + height

/-- Geometric tree invariant: every stored point lies in the closed rectangle
of the leaf it is stored in, the child rectangles being the four half-size
quadrants used by insert and by both queries. -/
def Node.inv {α : Type} [LinearOrderedField α] : Node α → α → α → α → α → Prop
  | Node.Leaf value, quad_x, quad_y, width, height =>
      ∀ p ∈ value, Point.inRect p quad_x quad_y width height
  | Node.Branch nw ne sw se, quad_x, quad_y, width, height =>
      Node.inv nw quad_x (quad_y + height / 2) (width / 2) (height / 2) ∧
      Node.inv ne (quad_x + width / 2) (quad_y + height / 2) (width / 2) (height / 2) ∧
      Node.inv sw quad_x quad_y (width / 2) (height / 2) ∧
      Node.inv se (quad_x + width / 2) quad_y (width / 2) (height / 2)

/-- The split lists of the overflowing leaf of Node.insert, phrased through
splitQuadrant: the nw list is exactly the points assigned NW, and so on.
This ties splitQuadrant to the source's partition predicates. -/
theorem Node.insert_split_eq_filter {α : Type} [LinearOrderedField α]
    (value : List (Point α)) (x_mid y_mid : α) :
    ((value.filter fun b => decide (b.position.2 ≥ y_mid)).filter fun b =>
        decide (b.position.1 < x_mid)) =
      (value.filter fun b => decide (splitQuadrant b x_mid y_mid = Quadrant.NW)) ∧
    ((value.filter fun b => decide (b.position.2 ≥ y_mid)).filter fun b =>
        !decide (b.position.1 < x_mid)) =
      (value.filter fun b => decide (splitQuadrant b x_mid y_mid = Quadrant.NE)) ∧
    ((value.filter fun b => !decide (b.position.2 ≥ y_mid)).filter fun b =>
        decide (b.position.1 < x_mid)) =
      (value.filter fun b => decide (splitQuadrant b x_mid y_mid = Quadrant.SW)) ∧
    ((value.filter fun b => !decide (b.position.2 ≥ y_mid)).filter fun b =>
        !decide (b.position.1 < x_mid)) =
      (value.filter fun b => decide (splitQuadrant b x_mid y_mid = Quadrant.SE)) := by
  refine ⟨?_, ?_, ?_, ?_⟩ <;>
    · rw [List.filter_filter]
      refine List.filter_congr fun b _ => ?_
      by_cases hy : b.position.2 ≥ y_mid <;> by_cases hx : b.position.1 < x_mid <;>
        simp [splitQuadrant, hy, hx]

/-- The descent of Node.insert at a Branch recurses into exactly the child
selected by descendQuadrant, with that child's rectangle.  This ties
descendQuadrant to the source's descent conditions. -/
theorem Node.insert_branch_eq {α : Type} [LinearOrderedField α]
    (nw ne sw se : Node α) (ball : Point α) (x y width height : α) (points_per_quad : Nat) :
    Node.insert (Node.Branch nw ne sw se) ball x y width height points_per_quad =
      match descendQuadrant ball (x + width / 2) (y + height / 2) with
      | Quadrant.NW => Node.Branch
          (Node.insert nw ball x (y + height / 2) (width / 2) (height / 2) points_per_quad) ne sw se
      | Quadrant.NE => Node.Branch nw
          (Node.insert ne ball (x + width / 2) (y + height / 2) (width / 2) (height / 2)
            points_per_quad) sw se
      | Quadrant.SW => Node.Branch nw ne
          (Node.insert sw ball x y (width / 2) (height / 2) points_per_quad) se
      | Quadrant.SE => Node.Branch nw ne sw
          (Node.insert se ball (x + width / 2) y (width / 2) (height / 2) points_per_quad) := by
  by_cases hx : ball.position.1 < x + width / 2 <;>
    by_cases hy : ball.position.2 > y + height / 2 <;>
      simp [Node.insert, descendQuadrant, hx, hy]

/-- The recursive query appends its contribution to the accumulator. -/
theorem Node.query_radius_rec_eq_collect {α : Type} [LinearOrderedField α] (node : Node α) :
    ∀ (x y width height quad_x quad_y radius : α) (result : List (Point α)),
    Node.query_radius_rec node x y width height quad_x quad_y radius result =
      result ++ Node.collectRec node x y width height quad_x quad_y radius := by
  induction node with
  | Leaf value =>
    intro x y width height quad_x quad_y radius result
    simp only [Node.query_radius_rec, Node.collectRec]
    split <;> simp
  | Branch nw ne sw se ihnw ihne ihsw ihse =>
    intro x y width height quad_x quad_y radius result
    simp only [Node.query_radius_rec, Node.collectRec]
    split
    · simp
    · simp only [ihnw, ihne, ihsw, ihse, List.append_assoc]

/-- Reversing four blocks is a permutation, with a common tail appended. -/
theorem perm_rev4_append {α : Type} (a b c d f : List α) :
    List.Perm (d ++ (c ++ (b ++ (a ++ f)))) ((a ++ (b ++ (c ++ d))) ++ f) := by
  apply Multiset.coe_eq_coe.mp
  simp only [← Multiset.coe_add]
  abel

/-- Unfolding equation of the work-list loop on the empty stack. -/
theorem QuadTree.queryLoop_nil {α : Type} [LinearOrderedField α]
    (x y radius : α) (result : List (Point α)) :
    QuadTree.queryLoop ([] : List (Node α × α × α × α × α)) x y radius result = result := by
  rw [QuadTree.queryLoop.eq_def]

/-- Unfolding equation of the work-list loop when the top entry is pruned. -/
theorem QuadTree.queryLoop_cons_pruned {α : Type} [LinearOrderedField α]
    {node : Node α} {quad_x quad_y width height x y radius : α}
    {rest : List (Node α × α × α × α × α)} {result : List (Point α)}
    (h : x + radius < quad_x ∨ x - radius > quad_x + width ∨
        y + radius < quad_y ∨ y - radius > quad_y + height) :
    QuadTree.queryLoop ((node, quad_x, quad_y, width, height) :: rest) x y radius result =
      QuadTree.queryLoop rest x y radius result := by
  rw [QuadTree.queryLoop.eq_def]
  exact if_pos h

/-- Unfolding equation of the work-list loop on a non-pruned Leaf entry. -/
theorem QuadTree.queryLoop_cons_leaf {α : Type} [LinearOrderedField α]
    {value : List (Point α)} {quad_x quad_y width height x y radius : α}
    {rest : List (Node α × α × α × α × α)} {result : List (Point α)}
    (h : ¬(x + radius < quad_x ∨ x - radius > quad_x + width ∨
        y + radius < quad_y ∨ y - radius > quad_y + height)) :
    QuadTree.queryLoop ((Node.Leaf value, quad_x, quad_y, width, height) :: rest)
        x y radius result =
      QuadTree.queryLoop rest x y radius (result ++ value) := by
  rw [QuadTree.queryLoop.eq_def]
  exact if_neg h

/-- Unfolding equation of the work-list loop on a non-pruned Branch entry:
the four children are pushed, so se is popped first. -/
theorem QuadTree.queryLoop_cons_branch {α : Type} [LinearOrderedField α]
    {nw ne sw se : Node α} {quad_x quad_y width height x y radius : α}
    {rest : List (Node α × α × α × α × α)} {result : List (Point α)}
    (h : ¬(x + radius < quad_x ∨ x - radius > quad_x + width ∨
        y + radius < quad_y ∨ y - radius > quad_y + height)) :
    QuadTree.queryLoop ((Node.Branch nw ne sw se, quad_x, quad_y, width, height) :: rest)
        x y radius result =
      QuadTree.queryLoop
        ((se, quad_x + width / 2, quad_y, width / 2, height / 2) ::
         (sw, quad_x, quad_y, width / 2, height / 2) ::
         (ne, quad_x + width / 2, quad_y + height / 2, width / 2, height / 2) ::
         (nw, quad_x, quad_y + height / 2, width / 2, height / 2) :: rest) x y radius result := by
  rw [QuadTree.queryLoop.eq_def]
  exact if_neg h

/-- The iterative work-list loop returns, up to permutation, the accumulated
result followed by the contributions of all stacked entries. -/
theorem QuadTree.queryLoop_perm {α : Type} [LinearOrderedField α]
    (stack : List (Node α × α × α × α × α)) (x y radius : α)
    (result : List (Point α)) :
    List.Perm (QuadTree.queryLoop stack x y radius result)
      (result ++ (stack.map (Node.collect x y radius)).flatten) := by
  induction stack, x, y, radius, result using QuadTree.queryLoop.induct with
  | case1 x y radius result =>
    simp [QuadTree.queryLoop_nil]
  | case2 x y radius result node quad_x quad_y width height rest hprune ih =>
    rw [QuadTree.queryLoop_cons_pruned hprune]
    refine ih.trans ?_
    have hz : Node.collect x y radius (node, quad_x, quad_y, width, height) = [] := by
      cases node <;> simp [Node.collect, Node.collectRec, hprune]
    simp [hz]
  | case3 x y radius result quad_x quad_y width height rest hprune value ih =>
    rw [QuadTree.queryLoop_cons_leaf hprune]
    refine ih.trans ?_
    simp [Node.collect, Node.collectRec, hprune, List.append_assoc]
  | case4 x y radius result quad_x quad_y width height rest hprune nw ne sw se w2 h2 xm ym ih =>
    rw [QuadTree.queryLoop_cons_branch hprune]
    refine ih.trans ?_
    simp only [List.map_cons, List.flatten_cons]
    refine (List.Perm.append_left result (perm_rev4_append _ _ _ _ _)).trans ?_
    simp [Node.collect, Node.collectRec, hprune, List.append_assoc]

/-- The iterative query is, up to order, the contribution of the root call. -/
theorem QuadTree.query_radius_perm_collect {α : Type} [LinearOrderedField α]
    (t : QuadTree α) (x y radius : α) :
    List.Perm (QuadTree.query_radius t x y radius)
      (Node.collectRec t.root x y t.width t.height t.left_x t.bottom_y radius) := by
  refine (QuadTree.queryLoop_perm _ x y radius []).trans ?_
  simp [Node.collect]

/-- Inserting one point adds exactly that point to the stored multiset:
a non-splitting push appends it, and a split redistributes the pushed leaf's
points into the four child leaves without loss or duplication. -/
theorem Node.insert_allPoints_perm {α : Type} [LinearOrderedField α] (node : Node α) :
    ∀ (ball : Point α) (x y width height : α) (points_per_quad : Nat),
    List.Perm (Node.allPoints (Node.insert node ball x y width height points_per_quad))
      (ball :: Node.allPoints node) := by
  induction node with
  | Leaf value =>
    intro ball x y width height ppq
    simp only [Node.insert]
    split
    · simp only [Node.allPoints]
      refine List.Perm.trans ?_ (List.perm_append_singleton ball value)
      have hns : List.Perm
          (((value ++ [ball]).filter fun b => decide (b.position.2 ≥ y + height / 2)) ++
            ((value ++ [ball]).filter fun b => !decide (b.position.2 ≥ y + height / 2)))
          (value ++ [ball]) :=
        List.filter_append_perm _ _
      refine List.Perm.trans ?_ hns
      rw [List.append_assoc]
      exact List.Perm.append (List.filter_append_perm _ _) (List.filter_append_perm _ _)
    · simp only [Node.allPoints]
      exact List.perm_append_singleton ball value
  | Branch nw ne sw se ihnw ihne ihsw ihse =>
    intro ball x y width height ppq
    simp only [Node.insert]
    by_cases hx : ball.position.1 < x + width / 2
    · by_cases hy : ball.position.2 > y + height / 2
      · rw [if_pos hx, if_pos hy]
        simp only [Node.allPoints]
        refine ((((ihnw ball x (y + height / 2) (width / 2) (height / 2)
          ppq)).append_right _).append_right _).append_right _ |>.trans ?_
        simp
      · rw [if_pos hx, if_neg hy]
        simp only [Node.allPoints]
        refine (((List.Perm.append_left _ (ihsw ball x y (width / 2) (height / 2)
          ppq)).append_right _)).trans ?_
        refine ((List.perm_middle).append_right _).trans ?_
        simp
    · by_cases hy : ball.position.2 > y + height / 2
      · rw [if_neg hx, if_pos hy]
        simp only [Node.allPoints]
        refine ((((List.Perm.append_left _ (ihne ball (x + width / 2) (y + height / 2)
          (width / 2) (height / 2) ppq)).append_right _)).append_right _).trans ?_
        refine (((List.perm_middle).append_right _).append_right _).trans ?_
        simp
      · rw [if_neg hx, if_neg hy]
        simp only [Node.allPoints]
        refine (List.Perm.append_left _ (ihse ball (x + width / 2) y
          (width / 2) (height / 2) ppq)).trans ?_
        exact List.perm_middle

/-- Folding inserts over a list prepends, up to order, the inserted points to
the tree's stored multiset. -/
theorem QuadTree.foldl_insert_allPoints_perm {α : Type} [LinearOrderedField α]
    (l : List (Point α)) :
    ∀ (t : QuadTree α) (points_per_quad : Nat),
    List.Perm
      (Node.allPoints
        (l.foldl (fun tree point => QuadTree.insert tree point points_per_quad) t).root)
      (l ++ Node.allPoints t.root) := by
  induction l with
  | nil =>
    intro t ppq
    simp
  | cons a l ih =>
    intro t ppq
    simp only [List.foldl_cons]
    refine (ih (QuadTree.insert t a ppq) ppq).trans ?_
    have h1 : List.Perm (Node.allPoints (QuadTree.insert t a ppq).root)
        (a :: Node.allPoints t.root) :=
      Node.insert_allPoints_perm t.root a t.left_x t.bottom_y t.width t.height ppq
    refine (List.Perm.append_left l h1).trans ?_
    exact List.perm_middle

/-- Build preserves the filtered input multiset: the points stored in the
leaves of the built tree are, up to order, exactly the in-bounds input
points. -/
theorem QuadTree.from_points_allPoints_perm {α : Type} [LinearOrderedField α]
    (points : List (Point α)) (left_x bottom_y width height : α) (points_per_quad : Nat) :
    List.Perm
      (Node.allPoints (QuadTree.from_points points left_x bottom_y width height
        points_per_quad).root)
      (points.filter fun p =>
        decide (p.position.1 ≥ left_x) && decide (p.position.1 ≤ left_x + width) &&
        decide (p.position.2 ≥ bottom_y) && decide (p.position.2 ≤ bottom_y + height)) := by
  refine (QuadTree.foldl_insert_allPoints_perm _ _ _).trans ?_
  simp [QuadTree.new, Node.allPoints]

/-- Inserting a point of the node's rectangle preserves the geometric
invariant: both tie-break rules (the split's and the descent's) route a point
only into a quadrant whose closed rectangle contains it. -/
theorem Node.insert_inv {α : Type} [LinearOrderedField α] (node : Node α) :
    ∀ (ball : Point α) (x y width height : α) (points_per_quad : Nat),
    Node.inv node x y width height → Point.inRect ball x y width height →
    Node.inv (Node.insert node ball x y width height points_per_quad) x y width height := by
  induction node with
  | Leaf value =>
    intro ball x y width height ppq hinv hball
    have hall : ∀ p ∈ value ++ [ball], Point.inRect p x y width height := by
      intro p hp
      rcases List.mem_append.mp hp with h | h
      · exact hinv p h
      · rw [List.mem_singleton] at h
        subst h
        exact hball
    simp only [Node.insert]
    split
    · simp only [Node.inv]
      refine ⟨?_, ?_, ?_, ?_⟩ <;>
        intro p hp <;>
          simp only [List.mem_filter, decide_eq_true_eq, Bool.not_eq_true',
            decide_eq_false_iff_not] at hp <;>
            obtain ⟨⟨hpm, hc1⟩, hc2⟩ := hp <;>
              obtain ⟨h1, h2, h3, h4⟩ := hall p hpm <;>
                exact ⟨by linarith, by linarith, by linarith, by linarith⟩
    · simp only [Node.inv]
      exact hall
  | Branch nw ne sw se ihnw ihne ihsw ihse =>
    intro ball x y width height ppq hinv hball
    obtain ⟨hnw, hne, hsw, hse⟩ := hinv
    obtain ⟨hb1, hb2, hb3, hb4⟩ := hball
    simp only [Node.insert]
    by_cases hx : ball.position.1 < x + width / 2
    · by_cases hy : ball.position.2 > y + height / 2
      · rw [if_pos hx, if_pos hy]
        exact ⟨ihnw ball x (y + height / 2) (width / 2) (height / 2) ppq hnw
          ⟨hb1, le_of_lt hx, le_of_lt hy, by linarith⟩, hne, hsw, hse⟩
      · rw [if_pos hx, if_neg hy]
        push_neg at hy
        exact ⟨hnw, hne, ihsw ball x y (width / 2) (height / 2) ppq hsw
          ⟨hb1, le_of_lt hx, hb3, hy⟩, hse⟩
    · push_neg at hx
      by_cases hy : ball.position.2 > y + height / 2
      · rw [if_neg (not_lt.mpr hx), if_pos hy]
        exact ⟨hnw, ihne ball (x + width / 2) (y + height / 2) (width / 2) (height / 2) ppq hne
          ⟨hx, by linarith, le_of_lt hy, by linarith⟩, hsw, hse⟩
      · rw [if_neg (not_lt.mpr hx), if_neg hy]
        push_neg at hy
        exact ⟨hnw, hne, hsw, ihse ball (x + width / 2) y (width / 2) (height / 2) ppq hse
          ⟨hx, by linarith, hb3, hy⟩⟩

/-- Folding quadtree inserts leaves the root fold over node inserts with the
tree's own bounds, and never changes the bounds fields. -/
theorem QuadTree.foldl_insert_root {α : Type} [LinearOrderedField α] (l : List (Point α)) :
    ∀ (t : QuadTree α) (points_per_quad : Nat),
    (l.foldl (fun tree point => QuadTree.insert tree point points_per_quad) t).root =
      l.foldl (fun n p => Node.insert n p t.left_x t.bottom_y t.width t.height points_per_quad)
        t.root ∧
    (l.foldl (fun tree point => QuadTree.insert tree point points_per_quad) t).left_x =
      t.left_x ∧
    (l.foldl (fun tree point => QuadTree.insert tree point points_per_quad) t).bottom_y =
      t.bottom_y ∧
    (l.foldl (fun tree point => QuadTree.insert tree point points_per_quad) t).width =
      t.width ∧
    (l.foldl (fun tree point => QuadTree.insert tree point points_per_quad) t).height =
      t.height := by
  induction l with
  | nil => intro t ppq; exact ⟨rfl, rfl, rfl, rfl, rfl⟩
  | cons a l ih =>
    intro t ppq
    simp only [List.foldl_cons]
    have h := ih (QuadTree.insert t a ppq) ppq
    simpa [QuadTree.insert] using h

/-- Folding node inserts of in-rectangle points preserves the geometric
invariant. -/
theorem Node.foldl_insert_inv {α : Type} [LinearOrderedField α] (l : List (Point α)) :
    ∀ (n : Node α) (x y width height : α) (points_per_quad : Nat),
    (∀ p ∈ l, Point.inRect p x y width height) →
    Node.inv n x y width height →
    Node.inv (l.foldl (fun n p => Node.insert n p x y width height points_per_quad) n)
      x y width height := by
  induction l with
  | nil => intro n x y w h ppq _ hinv; exact hinv
  | cons a l ih =>
    intro n x y w h ppq hmem hinv
    simp only [List.foldl_cons]
    refine ih _ x y w h ppq (fun p hp => hmem p (List.mem_cons_of_mem a hp)) ?_
    exact Node.insert_inv n a x y w h ppq hinv (hmem a (List.mem_cons_self a l))

/-- The tree built by from_points satisfies the geometric invariant over its
bounds rectangle. -/
theorem QuadTree.from_points_inv {α : Type} [LinearOrderedField α]
    (points : List (Point α)) (left_x bottom_y width height : α) (points_per_quad : Nat) :
    Node.inv (QuadTree.from_points points left_x bottom_y width height points_per_quad).root
      left_x bottom_y width height := by
  rw [QuadTree.from_points,
    (QuadTree.foldl_insert_root _ (QuadTree.new left_x bottom_y width height)
      points_per_quad).1]
  refine Node.foldl_insert_inv _ _ left_x bottom_y width height points_per_quad ?_ ?_
  · intro p hp
    simp only [List.mem_filter, Bool.and_eq_true, decide_eq_true_eq] at hp
    obtain ⟨_, ⟨⟨hp1, hp2⟩, hp3⟩, hp4⟩ := hp
    exact ⟨hp1, hp2, hp3, hp4⟩
  · intro p hp
    simp at hp

/-- For nonnegative width and height, every stored point of an invariant
subtree lies in the subtree's own closed rectangle. -/
theorem Node.inv_mem_inRect {α : Type} [LinearOrderedField α] (node : Node α) :
    ∀ (quad_x quad_y width height : α), 0 ≤ width → 0 ≤ height →
    Node.inv node quad_x quad_y width height →
    ∀ p ∈ Node.allPoints node, Point.inRect p quad_x quad_y width height := by
  induction node with
  | Leaf value =>
    intro qx qy w h hw hh hinv p hp
    exact hinv p hp
  | Branch nw ne sw se ihnw ihne ihsw ihse =>
    intro qx qy w h hw hh hinv p hp
    obtain ⟨hnw, hne, hsw, hse⟩ := hinv
    have hw2 : 0 ≤ w / 2 := by linarith
    have hh2 : 0 ≤ h / 2 := by linarith
    simp only [Node.allPoints, List.mem_append] at hp
    rcases hp with ((hp | hp) | hp) | hp
    · obtain ⟨h1, h2, h3, h4⟩ := ihnw qx (qy + h / 2) (w / 2) (h / 2) hw2 hh2 hnw p hp
      exact ⟨h1, by linarith, by linarith, by linarith⟩
    · obtain ⟨h1, h2, h3, h4⟩ :=
        ihne (qx + w / 2) (qy + h / 2) (w / 2) (h / 2) hw2 hh2 hne p hp
      exact ⟨by linarith, by linarith, by linarith, by linarith⟩
    · obtain ⟨h1, h2, h3, h4⟩ := ihsw qx qy (w / 2) (h / 2) hw2 hh2 hsw p hp
      exact ⟨h1, by linarith, h3, by linarith⟩
    · obtain ⟨h1, h2, h3, h4⟩ := ihse (qx + w / 2) qy (w / 2) (h / 2) hw2 hh2 hse p hp
      exact ⟨by linarith, by linarith, h3, by linarith⟩

/-- Broad-phase completeness at the node level: a stored point whose x and y
offsets from the query center are within the radius is returned; the prune
test can never cut a subtree containing such a point. -/
theorem Node.collectRec_complete {α : Type} [LinearOrderedField α] (node : Node α) :
    ∀ (x y width height quad_x quad_y radius : α), 0 ≤ width → 0 ≤ height →
    Node.inv node quad_x quad_y width height →
    ∀ p ∈ Node.allPoints node,
    |p.position.1 - x| ≤ radius → |p.position.2 - y| ≤ radius →
    p ∈ Node.collectRec node x y width height quad_x quad_y radius := by
  induction node with
  | Leaf value =>
    intro x y w h qx qy r hw hh hinv p hp hdx hdy
    obtain ⟨h1, h2, h3, h4⟩ := hinv p hp
    rw [abs_le] at hdx hdy
    have hnp : ¬(x + r < qx ∨ x - r > qx + w ∨ y + r < qy ∨ y - r > qy + h) := by
      push_neg
      exact ⟨by linarith, by linarith, by linarith, by linarith⟩
    simp only [Node.collectRec]
    rw [if_neg hnp]
    exact hp
  | Branch nw ne sw se ihnw ihne ihsw ihse =>
    intro x y w h qx qy r hw hh hinv p hp hdx hdy
    obtain ⟨hnw, hne, hsw, hse⟩ := hinv
    obtain ⟨h1, h2, h3, h4⟩ :=
      Node.inv_mem_inRect (Node.Branch nw ne sw se) qx qy w h hw hh ⟨hnw, hne, hsw, hse⟩ p hp
    have hdx2 := abs_le.mp hdx
    have hdy2 := abs_le.mp hdy
    have hnp : ¬(x + r < qx ∨ x - r > qx + w ∨ y + r < qy ∨ y - r > qy + h) := by
      push_neg
      refine ⟨?_, ?_, ?_, ?_⟩
      · obtain ⟨ha, hb⟩ := hdx2; linarith
      · obtain ⟨ha, hb⟩ := hdx2; linarith
      · obtain ⟨ha, hb⟩ := hdy2; linarith
      · obtain ⟨ha, hb⟩ := hdy2; linarith
    have hw2 : 0 ≤ w / 2 := by linarith
    have hh2 : 0 ≤ h / 2 := by linarith
    simp only [Node.collectRec]
    rw [if_neg hnp]
    simp only [Node.allPoints, List.mem_append] at hp
    simp only [List.mem_append]
    rcases hp with ((hp | hp) | hp) | hp
    · exact Or.inl (ihnw x y (w / 2) (h / 2) qx (qy + h / 2) r hw2 hh2 hnw p hp hdx hdy)
    · exact Or.inr (Or.inl (ihne x y (w / 2) (h / 2) (qx + w / 2) (qy + h / 2) r hw2 hh2
        hne p hp hdx hdy))
    · exact Or.inr (Or.inr (Or.inl (ihsw x y (w / 2) (h / 2) qx qy r hw2 hh2 hsw p hp
        hdx hdy)))
    · exact Or.inr (Or.inr (Or.inr (ihse x y (w / 2) (h / 2) (qx + w / 2) qy r hw2 hh2
        hse p hp hdx hdy)))

/-- Soundness at the node level: everything the query contributes is stored
in the subtree. -/
theorem Node.collectRec_subset {α : Type} [LinearOrderedField α] (node : Node α) :
    ∀ (x y width height quad_x quad_y radius : α) (p : Point α),
    p ∈ Node.collectRec node x y width height quad_x quad_y radius →
    p ∈ Node.allPoints node := by
  induction node with
  | Leaf value =>
    intro x y w h qx qy r p hp
    simp only [Node.collectRec] at hp
    split at hp
    · simp at hp
    · exact hp
  | Branch nw ne sw se ihnw ihne ihsw ihse =>
    intro x y w h qx qy r p hp
    simp only [Node.collectRec] at hp
    split at hp
    · simp at hp
    · simp only [List.mem_append] at hp
      simp only [Node.allPoints, List.mem_append]
      rcases hp with hp | hp | hp | hp
      · exact Or.inl (Or.inl (Or.inl (ihnw _ _ _ _ _ _ _ p hp)))
      · exact Or.inl (Or.inl (Or.inr (ihne _ _ _ _ _ _ _ p hp)))
      · exact Or.inl (Or.inr (ihsw _ _ _ _ _ _ _ p hp))
      · exact Or.inr (ihse _ _ _ _ _ _ _ p hp)

/-- Capacity bound is monotone in the capacity. -/
theorem Node.capOkb_mono {α : Type} (node : Node α) :
    ∀ (p1 p2 : Nat), p1 ≤ p2 → Node.capOkb p1 node = true → Node.capOkb p2 node = true := by
  induction node with
  | Leaf value =>
    intro p1 p2 hle h
    simp only [Node.capOkb, decide_eq_true_eq] at h ⊢
    omega
  | Branch nw ne sw se ihnw ihne ihsw ihse =>
    intro p1 p2 hle h
    simp only [Node.capOkb, Bool.and_eq_true] at h ⊢
    exact ⟨⟨⟨ihnw p1 p2 hle h.1.1.1, ihne p1 p2 hle h.1.1.2⟩, ihsw p1 p2 hle h.1.2⟩,
      ihse p1 p2 hle h.2⟩

/-- If the whole subtree stores at most the capacity many points, every leaf
trivially satisfies the capacity bound. -/
theorem Node.capOkb_of_total {α : Type} (node : Node α) :
    ∀ (points_per_quad : Nat), (Node.allPoints node).length ≤ points_per_quad →
    Node.capOkb points_per_quad node = true := by
  induction node with
  | Leaf value =>
    intro ppq h
    simpa [Node.capOkb] using h
  | Branch nw ne sw se ihnw ihne ihsw ihse =>
    intro ppq h
    simp only [Node.allPoints, List.length_append] at h
    simp only [Node.capOkb, Bool.and_eq_true]
    exact ⟨⟨⟨ihnw ppq (by omega), ihne ppq (by omega)⟩, ihsw ppq (by omega)⟩,
      ihse ppq (by omega)⟩

/-- One insert degrades the uniform leaf bound by at most one: a push into a
capacity-respecting leaf either stays within capacity or triggers a split
whose four child leaves each receive at most capacity + 1 points. -/
theorem Node.insert_capOkb_succ {α : Type} [LinearOrderedField α] (node : Node α) :
    ∀ (ball : Point α) (x y width height : α) (points_per_quad : Nat),
    Node.capOkb points_per_quad node = true →
    Node.capOkb (points_per_quad + 1)
      (Node.insert node ball x y width height points_per_quad) = true := by
  induction node with
  | Leaf value =>
    intro ball x y width height ppq h
    simp only [Node.capOkb, decide_eq_true_eq] at h
    simp only [Node.insert]
    split
    · simp only [Node.capOkb, Bool.and_eq_true, decide_eq_true_eq]
      have hlen : (value ++ [ball]).length ≤ ppq + 1 := by
        simp
        omega
      refine ⟨⟨⟨?_, ?_⟩, ?_⟩, ?_⟩ <;>
        exact le_trans (List.length_filter_le _ _) (le_trans (List.length_filter_le _ _) hlen)
    · simp only [Node.capOkb, decide_eq_true_eq]
      rename_i hlen
      rw [not_lt] at hlen
      omega
  | Branch nw ne sw se ihnw ihne ihsw ihse =>
    intro ball x y width height ppq h
    simp only [Node.capOkb, Bool.and_eq_true] at h
    obtain ⟨⟨⟨hnw, hne⟩, hsw⟩, hse⟩ := h
    simp only [Node.insert]
    by_cases hx : ball.position.1 < x + width / 2 <;>
      by_cases hy : ball.position.2 > y + height / 2 <;>
        simp only [if_pos, if_neg, hx, hy, ite_true, ite_false] <;>
          simp only [Node.capOkb, Bool.and_eq_true] <;>
            refine ⟨⟨⟨?_, ?_⟩, ?_⟩, ?_⟩ <;>
              first
                | exact ihnw ball _ _ _ _ ppq hnw
                | exact ihne ball _ _ _ _ ppq hne
                | exact ihsw ball _ _ _ _ ppq hsw
                | exact ihse ball _ _ _ _ ppq hse
                | exact Node.capOkb_mono _ ppq (ppq + 1) (Nat.le_succ ppq) hnw
                | exact Node.capOkb_mono _ ppq (ppq + 1) (Nat.le_succ ppq) hne
                | exact Node.capOkb_mono _ ppq (ppq + 1) (Nat.le_succ ppq) hsw
                | exact Node.capOkb_mono _ ppq (ppq + 1) (Nat.le_succ ppq) hse

/-- Building never changes the bounds fields of the tree. -/
theorem QuadTree.from_points_fields {α : Type} [LinearOrderedField α]
    (points : List (Point α)) (left_x bottom_y width height : α) (points_per_quad : Nat) :
    (QuadTree.from_points points left_x bottom_y width height points_per_quad).left_x =
      left_x ∧
    (QuadTree.from_points points left_x bottom_y width height points_per_quad).bottom_y =
      bottom_y ∧
    (QuadTree.from_points points left_x bottom_y width height points_per_quad).width = width ∧
    (QuadTree.from_points points left_x bottom_y width height points_per_quad).height =
      height := by
  rw [QuadTree.from_points]
  have h := QuadTree.foldl_insert_root
    (points.filter fun p =>
      decide (p.position.1 ≥ left_x) && decide (p.position.1 ≤ left_x + width) &&
      decide (p.position.2 ≥ bottom_y) && decide (p.position.2 ≤ bottom_y + height))
    (QuadTree.new left_x bottom_y width height) points_per_quad
  exact ⟨h.2.1, h.2.2.1, h.2.2.2.1, h.2.2.2.2⟩

/-- C9: the iterative work-list query_radius and the retained recursive
query_radius_rec, run on the same root and bounds, return the same set of
particles up to ordering (a permutation of one another). -/
theorem query_radius_iter_rec_equiv {α : Type} [LinearOrderedField α]
    (t : QuadTree α) (x y radius : α) :
    List.Perm (QuadTree.query_radius t x y radius)
      (Node.query_radius_rec t.root x y t.width t.height t.left_x t.bottom_y radius []) := by
  refine (QuadTree.query_radius_perm_collect t x y radius).trans ?_
  rw [Node.query_radius_rec_eq_collect]
  simp

/-- C10: building the index neither loses nor duplicates particles: the
points stored across all leaves of the built tree are a permutation of (the
same multiset as) the input points that lie inside the bounds
(inclusively). -/
theorem from_points_multiset_preservation {α : Type} [LinearOrderedField α]
    (points : List (Point α)) (left_x bottom_y width height : α) (points_per_quad : Nat) :
    List.Perm
      (Node.allPoints (QuadTree.from_points points left_x bottom_y width height
        points_per_quad).root)
      (points.filter fun p =>
        decide (p.position.1 ≥ left_x) && decide (p.position.1 ≤ left_x + width) &&
        decide (p.position.2 ≥ bottom_y) && decide (p.position.2 ≤ bottom_y + height)) :=
  QuadTree.from_points_allPoints_perm points left_x bottom_y width height points_per_quad

/-- C1: broad-phase superset.  Any particle of the input that lies in the
bounds (so it was inserted at build time) and whose true Euclidean distance
to the query center is at most the radius (stated for a nonnegative radius
through the equivalent squared form) is contained in the query_radius result;
query_radius is a superset of the brute-force within-radius set. -/
theorem queryRadius_broad_phase_superset {α : Type} [LinearOrderedField α]
    (points : List (Point α)) (left_x bottom_y width height : α) (points_per_quad : Nat)
    (cx cy radius : α) (p : Point α)
    (hp : p ∈ points)
    (hin : p.position.1 ≥ left_x ∧ p.position.1 ≤ left_x + width ∧
           p.position.2 ≥ bottom_y ∧ p.position.2 ≤ bottom_y + height)
    (hr : 0 ≤ radius)
    (hdist : (p.position.1 - cx) ^ 2 + (p.position.2 - cy) ^ 2 ≤ radius ^ 2) :
    p ∈ QuadTree.query_radius
      (QuadTree.from_points points left_x bottom_y width height points_per_quad)
      cx cy radius := by
  obtain ⟨hin1, hin2, hin3, hin4⟩ := hin
  have hw : 0 ≤ width := by linarith
  have hh : 0 ≤ height := by linarith
  have hmem : p ∈ Node.allPoints
      (QuadTree.from_points points left_x bottom_y width height points_per_quad).root := by
    refine (QuadTree.from_points_allPoints_perm points left_x bottom_y width height
      points_per_quad).mem_iff.mpr ?_
    refine List.mem_filter.mpr ⟨hp, ?_⟩
    simp only [Bool.and_eq_true, decide_eq_true_eq]
    exact ⟨⟨⟨hin1, hin2⟩, hin3⟩, hin4⟩
  have hdx : |p.position.1 - cx| ≤ radius := by
    rw [abs_le]
    constructor <;> nlinarith [sq_nonneg (p.position.2 - cy)]
  have hdy : |p.position.2 - cy| ≤ radius := by
    rw [abs_le]
    constructor <;> nlinarith [sq_nonneg (p.position.1 - cx)]
  have hcol : p ∈ Node.collectRec
      (QuadTree.from_points points left_x bottom_y width height points_per_quad).root
      cx cy width height left_x bottom_y radius :=
    Node.collectRec_complete _ cx cy width height left_x bottom_y radius hw hh
      (QuadTree.from_points_inv points left_x bottom_y width height points_per_quad)
      p hmem hdx hdy
  obtain ⟨hf1, hf2, hf3, hf4⟩ :=
    QuadTree.from_points_fields points left_x bottom_y width height points_per_quad
  have hperm := QuadTree.query_radius_perm_collect
    (QuadTree.from_points points left_x bottom_y width height points_per_quad) cx cy radius
  rw [hf1, hf2, hf3, hf4] at hperm
  exact hperm.mem_iff.mpr hcol

/-- C5: exclusion filter.  A particle strictly outside the bounds rectangle
at build time is dropped by the build's inclusive filter, so it appears in no
query_radius result against that index, whatever the query center and radius.
The build itself takes the particle list by value (its callers pass a clone)
and never mutates the Particle Store, which in this pure embedding is
immediate. -/
theorem exclusion_filter {α : Type} [LinearOrderedField α]
    (points : List (Point α)) (left_x bottom_y width height : α) (points_per_quad : Nat)
    (p : Point α)
    (hout : p.position.1 < left_x ∨ p.position.1 > left_x + width ∨
            p.position.2 < bottom_y ∨ p.position.2 > bottom_y + height) :
    ∀ (cx cy radius : α), p ∉ QuadTree.query_radius
      (QuadTree.from_points points left_x bottom_y width height points_per_quad)
      cx cy radius := by
  intro cx cy radius hmem
  obtain ⟨hf1, hf2, hf3, hf4⟩ :=
    QuadTree.from_points_fields points left_x bottom_y width height points_per_quad
  have hperm := QuadTree.query_radius_perm_collect
    (QuadTree.from_points points left_x bottom_y width height points_per_quad) cx cy radius
  rw [hf1, hf2, hf3, hf4] at hperm
  have hcol := hperm.mem_iff.mp hmem
  have hall := Node.collectRec_subset _ cx cy width height left_x bottom_y radius p hcol
  have hfil := (QuadTree.from_points_allPoints_perm points left_x bottom_y width height
    points_per_quad).mem_iff.mp hall
  have hcond := (List.mem_filter.mp hfil).2
  simp only [Bool.and_eq_true, decide_eq_true_eq] at hcond
  obtain ⟨⟨⟨hc1, hc2⟩, hc3⟩, hc4⟩ := hcond
  rcases hout with h | h | h | h <;> linarith

/-- Witness for C1 at a concrete input: one in-bounds particle at distance 0
from the query center is returned. -/
theorem queryRadius_broad_phase_superset_witness :
    Point.new 0 ((1 : ℚ), 1) (1, 1) (0, 0) 1 0 ∈ QuadTree.query_radius
      (QuadTree.from_points [Point.new 0 ((1 : ℚ), 1) (1, 1) (0, 0) 1 0] 0 0 16 16 16)
      1 1 1 :=
  queryRadius_broad_phase_superset
    [Point.new 0 ((1 : ℚ), 1) (1, 1) (0, 0) 1 0] 0 0 16 16 16 1 1 1
    (Point.new 0 ((1 : ℚ), 1) (1, 1) (0, 0) 1 0)
    (by simp)
    (by norm_num [Point.new])
    (by norm_num)
    (by norm_num [Point.new])

/-- Witness for C5 at a concrete input: a particle at (20, 20), strictly
outside the bounds rectangle from (0, 0) to (16, 16), is not returned even by
a query centered on the particle itself with a huge radius. -/
theorem exclusion_filter_witness :
    Point.new 0 ((20 : ℚ), 20) (20, 20) (0, 0) 1 0 ∉ QuadTree.query_radius
      (QuadTree.from_points [Point.new 0 ((20 : ℚ), 20) (20, 20) (0, 0) 1 0] 0 0 16 16 16)
      20 20 100 :=
  exclusion_filter [Point.new 0 ((20 : ℚ), 20) (20, 20) (0, 0) 1 0] 0 0 16 16 16
    (Point.new 0 ((20 : ℚ), 20) (20, 20) (0, 0) 1 0)
    (by norm_num [Point.new]) 20 20 100

/-- Counterexample to C2 as stated: building from two in-bounds particles at
(1, 1) and (7, 7) with bucket capacity 1 (a positive capacity) leaves a leaf
holding 2 > 1 particles: the single insert that overflows the root leaf
splits it once, and both particles land in the same sw quadrant leaf, which
is not re-split. -/
theorem capacity_invariant_counterexample :
    Node.capOkb 1 (QuadTree.from_points
      [Point.new 0 ((1 : ℚ), 1) (1, 1) (0, 0) 1 0, Point.new 1 ((7 : ℚ), 7) (7, 7) (0, 0) 1 1]
      0 0 16 16 1).root = false := by
  norm_num [QuadTree.from_points, QuadTree.insert, QuadTree.new, Node.insert, Node.capOkb,
    Point.new]

/-- C2 as amended: after build a leaf can exceed the bucket capacity, because
a split seeds each child with all of the split leaf's particles that fall in
that quadrant and children are not re-split until a later insert reaches
them.  What does hold: (a) when at most bucketCapacity particles survive the
bounds filter, every leaf of the built tree holds at most bucketCapacity
particles; and (b) a single insert into a tree all of whose leaves hold at
most bucketCapacity particles leaves every leaf with at most
bucketCapacity + 1 particles — in particular a push alone never leaves its
leaf over capacity, since the push that brings a leaf above bucketCapacity
replaces it by a one-level Branch whose children each hold at most
bucketCapacity + 1 points. -/
theorem capacity_invariant_amended {α : Type} [LinearOrderedField α]
    (points : List (Point α)) (left_x bottom_y width height : α) (points_per_quad : Nat) :
    ((points.filter fun p =>
        decide (p.position.1 ≥ left_x) && decide (p.position.1 ≤ left_x + width) &&
        decide (p.position.2 ≥ bottom_y) && decide (p.position.2 ≤ bottom_y + height)).length ≤
          points_per_quad →
      Node.capOkb points_per_quad
        (QuadTree.from_points points left_x bottom_y width height points_per_quad).root =
          true) ∧
    (∀ (node : Node α) (ball : Point α) (x y w h : α),
      Node.capOkb points_per_quad node = true →
      Node.capOkb (points_per_quad + 1)
        (Node.insert node ball x y w h points_per_quad) = true) := by
  constructor
  · intro hlen
    refine Node.capOkb_of_total _ points_per_quad ?_
    rw [(QuadTree.from_points_allPoints_perm points left_x bottom_y width height
      points_per_quad).length_eq]
    exact hlen
  · intro node ball x y w h hcap
    exact Node.insert_capOkb_succ node ball x y w h points_per_quad hcap

/-- Witness for the amended C2 at concrete inputs: one in-bounds particle
with capacity 1 builds a tree within capacity, and inserting a second
particle into a full one-particle leaf with capacity 1 leaves every leaf
with at most 2 particles. -/
theorem capacity_invariant_amended_witness :
    Node.capOkb 1 (QuadTree.from_points [Point.new 0 ((1 : ℚ), 1) (1, 1) (0, 0) 1 0]
      0 0 16 16 1).root = true ∧
    Node.capOkb 2 (Node.insert (Node.Leaf [Point.new 0 ((1 : ℚ), 1) (1, 1) (0, 0) 1 0])
      (Point.new 1 ((7 : ℚ), 7) (7, 7) (0, 0) 1 1) 0 0 16 16 1) = true :=
  ⟨(capacity_invariant_amended [Point.new 0 ((1 : ℚ), 1) (1, 1) (0, 0) 1 0]
      0 0 16 16 1).1 (by norm_num [Point.new]),
   (capacity_invariant_amended ([] : List (Point ℚ)) 0 0 16 16 1).2
      (Node.Leaf [Point.new 0 ((1 : ℚ), 1) (1, 1) (0, 0) 1 0])
      (Point.new 1 ((7 : ℚ), 7) (7, 7) (0, 0) 1 1) 0 0 16 16
      (by norm_num [Node.capOkb])⟩

/-- Counterexample to C3 as stated: the split rule and the descent rule
disagree on the y-axis midpoint.  All three particles below lie exactly on
the root's y midline (y = 8 with bounds from (0, 0) to (16, 16)): the split
triggered by the second insert routes the first two particles north (split
assigns y = y_mid to the north half via >=), while the third insert's
descent routes its particle south (descent requires the strict y > y_mid for
north), so the built tree stores midline particles in both the nw and the sw
child. -/
theorem tie_break_counterexample :
    splitQuadrant (Point.new 0 ((1 : ℚ), 8) (1, 8) (0, 0) 1 0) 8 8 = Quadrant.NW ∧
    descendQuadrant (Point.new 0 ((1 : ℚ), 8) (1, 8) (0, 0) 1 0) 8 8 = Quadrant.SW ∧
    (QuadTree.from_points
      [Point.new 0 ((1 : ℚ), 8) (1, 8) (0, 0) 1 0, Point.new 1 ((2 : ℚ), 8) (2, 8) (0, 0) 1 1,
       Point.new 2 ((3 : ℚ), 8) (3, 8) (0, 0) 1 2]
      0 0 16 16 1).root =
      Node.Branch
        (Node.Leaf [Point.new 0 ((1 : ℚ), 8) (1, 8) (0, 0) 1 0,
                    Point.new 1 ((2 : ℚ), 8) (2, 8) (0, 0) 1 1])
        (Node.Leaf [])
        (Node.Leaf [Point.new 2 ((3 : ℚ), 8) (3, 8) (0, 0) 1 2])
        (Node.Leaf []) := by
  refine ⟨by norm_num [splitQuadrant, Point.new], by norm_num [descendQuadrant, Point.new], ?_⟩
  norm_num [QuadTree.from_points, QuadTree.insert, QuadTree.new, Node.insert, Point.new]

/-- C3 as amended: the x-axis tie-break is one consistent rule (x < x_mid is
west, in both the split and the descent), and off the y midline the two
rules assign the same quadrant; but exactly on the y midline they always
disagree: the split assigns the particle to the north half (y >= y_mid)
while the descent assigns it to the south half (strict y > y_mid). -/
theorem tie_break_amended {α : Type} [LinearOrderedField α]
    (b : Point α) (x_mid y_mid : α) :
    (b.position.2 ≠ y_mid →
      splitQuadrant b x_mid y_mid = descendQuadrant b x_mid y_mid) ∧
    (b.position.2 = y_mid →
      (b.position.1 < x_mid →
        splitQuadrant b x_mid y_mid = Quadrant.NW ∧
        descendQuadrant b x_mid y_mid = Quadrant.SW) ∧
      (¬ b.position.1 < x_mid →
        splitQuadrant b x_mid y_mid = Quadrant.NE ∧
        descendQuadrant b x_mid y_mid = Quadrant.SE)) := by
  constructor
  · intro hne
    rcases lt_or_gt_of_ne hne with hlt | hgt
    · have h1 : ¬ b.position.2 ≥ y_mid := not_le.mpr hlt
      have h2 : ¬ b.position.2 > y_mid := by
        intro h
        exact absurd (le_of_lt h) h1
      by_cases hx : b.position.1 < x_mid <;>
        simp [splitQuadrant, descendQuadrant, h1, h2, hx]
    · have h1 : b.position.2 ≥ y_mid := le_of_lt hgt
      by_cases hx : b.position.1 < x_mid <;>
        simp [splitQuadrant, descendQuadrant, h1, hgt, hx]
  · intro heq
    have h1 : b.position.2 ≥ y_mid := le_of_eq heq.symm
    have h2 : ¬ b.position.2 > y_mid := by
      rw [heq]
      exact lt_irrefl y_mid
    constructor
    · intro hx
      simp [splitQuadrant, descendQuadrant, h1, h2, hx]
    · intro hx
      simp [splitQuadrant, descendQuadrant, h1, h2, hx]

/-- Witness for the amended C3 at concrete inputs: a particle off the
midline is routed identically by both rules, and a particle exactly on the
midline is routed north by the split rule and south by the descent rule. -/
theorem tie_break_amended_witness :
    splitQuadrant (Point.new 0 ((1 : ℚ), 2) (1, 2) (0, 0) 1 0) 8 8 =
      descendQuadrant (Point.new 0 ((1 : ℚ), 2) (1, 2) (0, 0) 1 0) 8 8 ∧
    (splitQuadrant (Point.new 0 ((1 : ℚ), 8) (1, 8) (0, 0) 1 0) 8 8 = Quadrant.NW ∧
     descendQuadrant (Point.new 0 ((1 : ℚ), 8) (1, 8) (0, 0) 1 0) 8 8 = Quadrant.SW) :=
  ⟨(tie_break_amended (Point.new 0 ((1 : ℚ), 2) (1, 2) (0, 0) 1 0) 8 8).1
      (by norm_num [Point.new]),
   ((tie_break_amended (Point.new 0 ((1 : ℚ), 8) (1, 8) (0, 0) 1 0) 8 8).2
      (by norm_num [Point.new])).1 (by norm_num [Point.new])⟩

/-- Counterexample to C6 as stated: with walls at 0 and 10, a particle of
radius 20 centered at x = 5 penetrates the right boundary (5 + 20 > 10), yet
after the wall pass its x coordinate is left + radius = 20, not
right - radius = -10: when both side boundaries are penetrated the source's
if-else clamps to the left wall. -/
theorem wall_clamp_counterexample :
    (Point.new 0 ((5 : ℚ), 100) (5, 100) (0, 0) 20 0).position.1 +
        (Point.new 0 ((5 : ℚ), 100) (5, 100) (0, 0) 20 0).radius > 10 ∧
    (Model.resolve_wall_step (-2200 : ℚ) 0 10 0
        (Point.new 0 ((5 : ℚ), 100) (5, 100) (0, 0) 20 0)).position.1 ≠ 10 - 20 := by
  norm_num [Model.resolve_wall_step, Point.new]

/-- C6 as amended: after the wall pass, a particle penetrating the floor has
its y coordinate exactly bottom + radius, its vertical acceleration zeroed,
and the magnitude of its implicit vertical velocity halved; a particle
penetrating the left boundary has x exactly left + radius; a particle
penetrating the right boundary and not the left one has x exactly
right - radius; in both side cases the implicit horizontal velocity is
halved in magnitude.  (A particle penetrating both side walls is clamped to
the left wall, per the counterexample.) -/
theorem wall_clamp_amended {α : Type} [LinearOrderedField α]
    (gravity left right bottom : α) (p : Point α) :
    (p.position.2 - p.radius < bottom →
      (Model.resolve_wall_step gravity left right bottom p).position.2 = bottom + p.radius ∧
      (Model.resolve_wall_step gravity left right bottom p).acceleration.2 = 0 ∧
      |(Model.resolve_wall_step gravity left right bottom p).position.2 -
          (Model.resolve_wall_step gravity left right bottom p).prev_position.2| =
        |p.position.2 - p.prev_position.2| / 2) ∧
    (p.position.1 - p.radius < left →
      (Model.resolve_wall_step gravity left right bottom p).position.1 = left + p.radius ∧
      |(Model.resolve_wall_step gravity left right bottom p).position.1 -
          (Model.resolve_wall_step gravity left right bottom p).prev_position.1| =
        |p.position.1 - p.prev_position.1| / 2) ∧
    (p.position.1 + p.radius > right → ¬(p.position.1 - p.radius < left) →
      (Model.resolve_wall_step gravity left right bottom p).position.1 = right - p.radius ∧
      |(Model.resolve_wall_step gravity left right bottom p).position.1 -
          (Model.resolve_wall_step gravity left right bottom p).prev_position.1| =
        |p.position.1 - p.prev_position.1| / 2) := by
  have habs : ∀ a d : α, |a - (a + d * (1 / 2))| = |d| / 2 := by
    intro a d
    have h : a - (a + d * (1 / 2)) = -(d / 2) := by ring
    rw [h, abs_neg, abs_div]
    norm_num
  have habs2 : ∀ d : α, |d * 2⁻¹| = |d| / 2 := by
    intro d
    rw [abs_mul, abs_inv, abs_two, div_eq_mul_inv]
  refine ⟨fun h1 => ?_, fun h2 => ?_, fun h3 h2 => ?_⟩
  · by_cases h2 : p.position.1 - p.radius < left
    · simp [Model.resolve_wall_step, h1, h2, habs, habs2]
    · by_cases h3 : p.position.1 + p.radius > right
      · simp [Model.resolve_wall_step, h1, h2, h3, habs, habs2]
      · simp [Model.resolve_wall_step, h1, h2, h3, habs, habs2]
  · by_cases h1 : p.position.2 - p.radius < bottom
    · simp [Model.resolve_wall_step, h1, h2, habs, habs2]
    · simp [Model.resolve_wall_step, h1, h2, habs, habs2]
  · by_cases h1 : p.position.2 - p.radius < bottom
    · simp [Model.resolve_wall_step, h1, h2, h3, habs, habs2]
    · simp [Model.resolve_wall_step, h1, h2, h3, habs, habs2]

/-- Witness for the amended C6 at concrete inputs: a particle penetrating
floor and left is clamped to bottom + radius and left + radius with halved
implicit velocities and zeroed vertical acceleration; a particle penetrating
only the right wall is clamped to right - radius. -/
theorem wall_clamp_amended_witness :
    ((Model.resolve_wall_step (-2200 : ℚ) 0 100 0
        (Point.new 0 ((2 : ℚ), 3) (1, 1) (0, 0) 5 0)).position.2 = 0 + 5 ∧
      (Model.resolve_wall_step (-2200 : ℚ) 0 100 0
        (Point.new 0 ((2 : ℚ), 3) (1, 1) (0, 0) 5 0)).acceleration.2 = 0 ∧
      |(Model.resolve_wall_step (-2200 : ℚ) 0 100 0
          (Point.new 0 ((2 : ℚ), 3) (1, 1) (0, 0) 5 0)).position.2 -
          (Model.resolve_wall_step (-2200 : ℚ) 0 100 0
            (Point.new 0 ((2 : ℚ), 3) (1, 1) (0, 0) 5 0)).prev_position.2| =
        |(Point.new 0 ((2 : ℚ), 3) (1, 1) (0, 0) 5 0).position.2 -
          (Point.new 0 ((2 : ℚ), 3) (1, 1) (0, 0) 5 0).prev_position.2| / 2) ∧
    ((Model.resolve_wall_step (-2200 : ℚ) 0 100 0
        (Point.new 0 ((2 : ℚ), 3) (1, 1) (0, 0) 5 0)).position.1 = 0 + 5) ∧
    ((Model.resolve_wall_step (-2200 : ℚ) 0 100 0
        (Point.new 0 ((98 : ℚ), 50) (98, 50) (0, 0) 5 0)).position.1 = 100 - 5) :=
  ⟨(wall_clamp_amended (-2200 : ℚ) 0 100 0 (Point.new 0 ((2 : ℚ), 3) (1, 1) (0, 0) 5 0)).1
      (by norm_num [Point.new]),
   ((wall_clamp_amended (-2200 : ℚ) 0 100 0 (Point.new 0 ((2 : ℚ), 3) (1, 1) (0, 0) 5 0)).2.1
      (by norm_num [Point.new])).1,
   ((wall_clamp_amended (-2200 : ℚ) 0 100 0
      (Point.new 0 ((98 : ℚ), 50) (98, 50) (0, 0) 5 0)).2.2
      (by norm_num [Point.new]) (by norm_num [Point.new])).1⟩

/-- C8: spawn contract.  From any reachable store (ids are exactly
0 .. n-1 in order, which holds initially and is preserved by every spawn),
a spawn appends a particle whose id is the store length, so ids remain
exactly 0 .. n and are strictly increasing and unique; the new particle's
radius is the drawn value, which nannou's random_range(min, max) guarantees
to lie in the half-open interval, hence within [minRadius, maxRadius]; and
its prev_position is its position minus the non-zero horizontal offset
(2, 0), giving a small non-zero initial implicit velocity. -/
theorem spawn_contract {α : Type} [LinearOrderedField α] (m : Model α) (position : α × α)
    (random_radius : α) (random_color : Nat)
    (hids : m.points.map Point.id = List.range m.points.length)
    (hmin : m.minimum_size ≤ random_radius) (hmax : random_radius < m.maximum_size) :
    ((m.spawn_point position random_radius random_color).points.map Point.id =
      List.range (m.points.length + 1)) ∧
    ((m.spawn_point position random_radius random_color).points.map Point.id).Pairwise
      (· < ·) ∧
    (∀ q ∈ (m.spawn_point position random_radius random_color).points, q ∉ m.points →
      q.id = m.points.length ∧
      m.minimum_size ≤ q.radius ∧ q.radius ≤ m.maximum_size ∧
      q.position.1 - q.prev_position.1 = 2 ∧ q.position.2 - q.prev_position.2 = 0) := by
  have hmap : (m.spawn_point position random_radius random_color).points.map Point.id =
      List.range (m.points.length + 1) := by
    simp only [Model.spawn_point, List.map_append, hids, List.map_cons, List.map_nil]
    rw [List.range_succ]
    rfl
  refine ⟨hmap, ?_, ?_⟩
  · rw [hmap]
    exact List.pairwise_lt_range (m.points.length + 1)
  · intro q hq hqnot
    simp only [Model.spawn_point, List.mem_append, List.mem_singleton] at hq
    rcases hq with hq | hq
    · exact absurd hq hqnot
    · subst hq
      refine ⟨rfl, hmin, le_of_lt hmax, ?_, ?_⟩
      · simp [Point.new]
      · simp [Point.new]

/-- Witness for C8 at a concrete input: spawning into the empty store with
minimum size 8 and maximum size 16 and drawn radius 10 yields the singleton
id list [0]. -/
theorem spawn_contract_witness :
    ((Model.mk ([] : List (Point ℚ)) 16 true true SpawnerMode.TopLeft 16 8 16).spawn_point
        (0, 0) 10 0).points.map Point.id = List.range 1 :=
  (spawn_contract (Model.mk ([] : List (Point ℚ)) 16 true true SpawnerMode.TopLeft 16 8 16)
    (0, 0) 10 0 rfl (by norm_num) (by norm_num)).1

theorem real_sqrt_225 : Real.sqrt 225 = 15 := by
  rw [show (225 : ℝ) = 15 ^ 2 by norm_num]
  exact Real.sqrt_sq (by norm_num)

/-- C4 fails on the code: both collision passes call normalize on the
separating axis with no zero-length guard.  With two distinct particles at
exactly the same center (or the pointer exactly at a particle's center) the
axis is the zero vector, its normalization has NaN components, and the NaN
is added into the particle's position: no fallback axis is substituted.  The
embedding records the NaN-poisoned outcome as none: both particles of the
coincident pair end the pass with position none, and the pointer pass on a
centered particle returns none. -/
theorem zero_axis_normalize_nan :
    Model.resolve_collisions Real.sqrt
      [Point.new 0 ((0 : ℝ), 0) (0, 0) (0, 0) 10 0,
       Point.new 1 ((0 : ℝ), 0) (0, 0) (0, 0) 10 1]
      (-400) (-400) 800 800 16 16 = [none, none] ∧
    Model.resolve_mouse_collisions Real.sqrt
      [Point.new 0 ((0 : ℝ), 0) (0, 0) (0, 0) 10 0] ((0 : ℝ), 0) 16 = [none] := by
  constructor
  · norm_num [Model.resolve_collisions, Model.resolve_point, QuadTree.from_points,
      QuadTree.insert, QuadTree.new, Node.insert, QuadTree.query_radius,
      QuadTree.queryLoop_cons_leaf, QuadTree.queryLoop_nil, vec_normalize, Point.new,
      Real.sqrt_zero]
  · norm_num [Model.resolve_mouse_collisions, Model.resolve_mouse_step, vec_normalize,
      Point.new, Real.sqrt_zero]

/-- C7: the end-to-end two-particle scenario.  Two particles of radius 10
whose centers are exactly 15 apart along the x axis (and no others): after
one collision pass each particle's own task moves it by exactly
normalize(p.position - q.position) * (10 + 10 - 15) * 0.5, i.e. by 2.5 along
the separating axis, computed against the start-of-pass snapshot; only the
task's own particle is mutated, and its other fields are unchanged.  Here
the left particle moves from x = -7.5 to x = -10 and the right one from
x = 7.5 to x = 10. -/
theorem collision_pass_two_particle_scenario :
    Model.resolve_collisions Real.sqrt
      [Point.new 0 ((-15 / 2 : ℝ), 0) (-15 / 2, 0) (0, 0) 10 0,
       Point.new 1 ((15 / 2 : ℝ), 0) (15 / 2, 0) (0, 0) 10 1]
      (-400) (-400) 800 800 16 16 =
      [some (Point.new 0 ((-10 : ℝ), 0) (-15 / 2, 0) (0, 0) 10 0),
       some (Point.new 1 ((10 : ℝ), 0) (15 / 2, 0) (0, 0) 10 1)] := by
  norm_num [Model.resolve_collisions, Model.resolve_point, QuadTree.from_points,
    QuadTree.insert, QuadTree.new, Node.insert, QuadTree.query_radius,
    QuadTree.queryLoop_cons_leaf, QuadTree.queryLoop_nil, vec_normalize, Point.new,
    real_sqrt_225]
